import Mathlib

set_option maxRecDepth 4000

/-!
Verification development for the template-context binding layer of a
documentation generator (`src/context.cpp`).  The definitions below are a
shallow embedding of the C++ code: each `def` mirrors one function or data
structure of the source, with machine state (mutable members, out-params,
the memoization cookie) made explicit.  Theorems about the embedded
definitions settle the specification claims.
-/

/-! ## Variant values (`TemplateVariant`)

The source's `TemplateVariant` is a tagged union; the scalar kinds suffice
for the properties studied here.  A default-constructed `TemplateVariant()`
is the invalid ("None") variant. -/

inductive TemplateVariant : Type where
  | invalid : TemplateVariant
  | bool (b : Bool) : TemplateVariant
  | int (i : Int) : TemplateVariant
  | str (s : String) : TemplateVariant
deriving DecidableEq

/-! ## Property tables (`PropertyMapper<T>`, context.cpp lines 206-274)

`m_map` models the `std::unordered_map<std::string, PropertyFuncIntf*>`:
a finite name-keyed map, here an association list with unique keys
(`addProperty` refuses duplicates). -/

structure PropertyMapper (T : Type) : Type where
  m_map : List (String × (T → TemplateVariant))

/-- Model of `PropertyMapper::addProperty` (context.cpp 234-245): if the
name is already present an error is reported (`err(...)`, modelled by the
returned `Bool` being `true`) and the map is left unchanged; otherwise the
accessor is inserted under the name. -/
def PropertyMapper.addProperty {T : Type} (pm : PropertyMapper T)
    (name : String) (handle : T → TemplateVariant) : PropertyMapper T × Bool :=
  if (pm.m_map.lookup name).isSome then
    (pm, true)
  else
    (⟨pm.m_map ++ [(name, handle)]⟩, false)

/-- Model of `PropertyMapper::get` (context.cpp 253-259): returns the
accessor's result, or the invalid variant (`TemplateVariant()`) if the name
was never registered. -/
def PropertyMapper.get {T : Type} (pm : PropertyMapper T)
    (obj : T) (name : String) : TemplateVariant :=
  match pm.m_map.lookup name with
  | some f => f obj
  | none => TemplateVariant.invalid

/-- Model of `PropertyMapper::fields` (context.cpp 261-270): collect all
registered names and `std::sort` them. -/
def PropertyMapper.fields {T : Type} (pm : PropertyMapper T) : List String :=
  List.insertionSort (· ≤ ·) (pm.m_map.map Prod.fst)

/-! ## Per-symbol cache ("cookie") for parsed documentation

`enum ContextOutputFormat` (context.cpp 62-72) and the text-valued slots of
`DefinitionContext::Cachable` (context.cpp 1664-1713).  The `Cachable`
constructor leaves the `std::unique_ptr` slots null and sets every recorded
format to `ContextOutputFormat_Unspecified`. -/

inductive ContextOutputFormat : Type where
  | Unspecified | Html | Latex | Rtf | ManPage | DocBook | Xml | TagFile
deriving DecidableEq

structure Cachable : Type where
  details : Option TemplateVariant
  detailsOutputFormat : ContextOutputFormat
  brief : Option TemplateVariant
  briefOutputFormat : ContextOutputFormat
deriving DecidableEq

/-- The state of a fresh `Cachable` (its constructor, context.cpp 1666+):
both text slots unset, both formats `Unspecified`. -/
def Cachable.fresh : Cachable :=
  ⟨none, ContextOutputFormat.Unspecified, none, ContextOutputFormat.Unspecified⟩

/-- Model of `DefinitionContext::details` (context.cpp 1516-1526).
`parseDocDetails` stands for the collaborator call
`parseDoc(m_def, ..., m_def->documentation(), FALSE)` under the current
output format (`g_globals.outputFormat`, passed here as `fmt`).  The result
is the returned variant, the updated cache, and the number of parser
invocations performed by this call. -/
def DefinitionContext.details (parseDocDetails : ContextOutputFormat → TemplateVariant)
    (fmt : ContextOutputFormat) (cache : Cachable) :
    TemplateVariant × Cachable × Nat :=
  if cache.details.isNone || fmt != cache.detailsOutputFormat then
    let v := parseDocDetails fmt
    (v, { cache with details := some v, detailsOutputFormat := fmt }, 1)
  else
    (cache.details.getD TemplateVariant.invalid, cache, 0)

/-- Model of `DefinitionContext::brief` (context.cpp 1527-1544).  When the
definition has no brief description the slot is filled with the empty
string variant and — as in the source — `briefOutputFormat` is left
untouched.  The counter again counts `parseDoc` invocations. -/
def DefinitionContext.brief (hasBriefDescription : Bool)
    (parseDocBrief : ContextOutputFormat → TemplateVariant)
    (fmt : ContextOutputFormat) (cache : Cachable) :
    TemplateVariant × Cachable × Nat :=
  if cache.brief.isNone || fmt != cache.briefOutputFormat then
    if hasBriefDescription then
      let v := parseDocBrief fmt
      (v, { cache with brief := some v, briefOutputFormat := fmt }, 1)
    else
      (TemplateVariant.str "", { cache with brief := some (TemplateVariant.str "") }, 0)
  else
    (cache.brief.getD TemplateVariant.invalid, cache, 0)

/-- Iterate `DefinitionContext.brief` over a sequence of render-pass
formats, collecting the returned variants and the total number of parser
invocations. -/
def DefinitionContext.briefRun (hasBriefDescription : Bool)
    (parseDocBrief : ContextOutputFormat → TemplateVariant) :
    List ContextOutputFormat → Cachable → List TemplateVariant × Cachable × Nat
  | [], cache => ([], cache, 0)
  | fmt :: rest, cache =>
    let r := DefinitionContext.brief hasBriefDescription parseDocBrief fmt cache
    let rs := DefinitionContext.briefRun hasBriefDescription parseDocBrief rest r.2.1
    (r.1 :: rs.1, rs.2.1, r.2.2 + rs.2.2)

/-! ## Tree depth metrics (context.cpp 6163-6231)

The metrics only read each node's `"children"` list, so a tree node is
embedded as its children list. -/

inductive TNode : Type where
  | node (children : List TNode) : TNode

def TNode.children : TNode → List TNode
  | .node cs => cs

/-- Model of `computeMaxDepth` (context.cpp 6163-6180): the longest
root-to-leaf path over a list of roots, `0` for the empty list. -/
def computeMaxDepth : List TNode → Nat
  | [] => 0
  | TNode.node cs :: rest => max (computeMaxDepth cs + 1) (computeMaxDepth rest)

mutual

/-- Model of `computeNumNodesAtLevel` (context.cpp 6182-6201): counts the
node itself if `level < maxLevel`, plus its descendants recursively one
level deeper. -/
def computeNumNodesAtLevel : TNode → Nat → Nat → Nat
  | TNode.node cs, level, maxLevel =>
    if level < maxLevel then
      1 + computeNumNodesAtLevelList cs (level + 1) maxLevel
    else 0

/-- The summation loop over a `TemplateListIntf` of nodes inside
`computeNumNodesAtLevel` (and reused by `computePreferredDepth`'s per-root
summation loop). -/
def computeNumNodesAtLevelList : List TNode → Nat → Nat → Nat
  | [], _, _ => 0
  | c :: rest, level, maxLevel =>
    computeNumNodesAtLevel c level maxLevel +
      computeNumNodesAtLevelList rest level maxLevel

end

/-- The scanning loop of `computePreferredDepth` (context.cpp 6203-6231):
`i` runs from `1` while `i <= depth`; at each depth the per-root node
counts at limit `i` are summed; if the sum stays within the threshold the
candidate depth is recorded and scanning continues, otherwise the loop
breaks. -/
def preferredDepthLoop (list : List TNode) (preferredNumEntries : Int)
    (depth : Nat) (i : Nat) (preferredDepth : Nat) : Nat :=
  if i ≤ depth then
    let num := computeNumNodesAtLevelList list 0 i
    if (num : Int) ≤ preferredNumEntries then
      preferredDepthLoop list preferredNumEntries depth (i + 1) i
    else
      preferredDepth
  else
    preferredDepth
termination_by depth + 1 - i

/-- Model of `computePreferredDepth` (context.cpp 6203-6231).
`preferredNumEntries` is the configured `HTML_INDEX_NUM_ENTRIES`
threshold; the initial preferred depth is `1` and the scan only runs when
the threshold is positive. -/
def computePreferredDepth (list : List TNode) (maxDepth : Nat)
    (preferredNumEntries : Int) : Nat :=
  if preferredNumEntries > 0 then
    preferredDepthLoop list preferredNumEntries maxDepth 1 1
  else 1

/-! ## The class graph

Classes are identified by a `ClassId` (the stable symbol identity used by
visited sets).  The per-class data read by the inherited-member aggregator
(context.cpp 9911-10019) and the hierarchy builder (context.cpp 6643-6675,
7086-7143) is collected in `ClassInfo`; the whole symbol graph is a finite
map `Env` from ids to infos.  External collaborator methods that are only
tested, never inspected (`countMembersIncludingGrouped`), are carried as
opaque function fields. -/

abbrev ClassId := Nat

inductive Protection : Type where
  | Public | Protected | Private | Package
deriving DecidableEq

/-- One edge of a `BaseClassList`: the referenced class and the protection
level of the inheritance relation. -/
structure BaseClassDef : Type where
  classDef : ClassId
  prot : Protection
deriving DecidableEq

/-- The fields of a `MemberDef` read by the aggregator: its identity, its
visibility in the brief section, the classes that reimplement it
(`isReimplementedBy`), the list type of its section
(`getSectionList(container)->listType()`), and the class that owns it
(`getClassDef`).  Member-list categories (`MemberListType`) are embedded
as `Int` because the source manipulates them as `int` with `-1` as the
"no list" sentinel. -/
structure Member : Type where
  id : Nat
  isBriefSectionVisible : Bool
  reimplementedBy : List ClassId
  sectionListType : Int
  ownerCls : ClassId
deriving DecidableEq

/-- A `MemberList`: its direct members plus the member groups attached to
it (`getMemberGroupList`), each group being its member list. -/
structure MemberListModel : Type where
  members : List Member
  memberGroupList : List (List Member)
deriving DecidableEq

/-- A class-level `MemberGroup` (`ClassDef::getMemberGroups`). -/
structure MemberGroup : Type where
  members : List Member
  allMembersInSameSection : Bool
deriving DecidableEq

structure ClassInfo : Type where
  baseClasses : List BaseClassDef
  subClasses : List BaseClassDef
  isLinkable : Bool
  isVisibleInHierarchy : Bool
  languageIsVHDL : Bool
  vhdlIsEntityClass : Bool
  memberLists : List (Int × MemberListModel)
  memberGroups : List MemberGroup
  subGrouping : Bool
  countMembersIncludingGrouped : Int → ClassId → Bool → Nat

/-- A class pointer that exists but carries no data (used for ids outside
the environment). -/
def ClassInfo.empty : ClassInfo :=
  { baseClasses := []
    subClasses := []
    isLinkable := false
    isVisibleInHierarchy := false
    languageIsVHDL := false
    vhdlIsEntityClass := false
    memberLists := []
    memberGroups := []
    subGrouping := false
    countMembersIncludingGrouped := fun _ _ _ => 0 }

abbrev Env := List (ClassId × ClassInfo)

def getClass (env : Env) (c : ClassId) : ClassInfo :=
  (env.lookup c).getD ClassInfo.empty

/-- `ClassDef::getMemberList`: the member list registered for a list
type, if any. -/
def getMemberList (ci : ClassInfo) (lt : Int) : Option MemberListModel :=
  ci.memberLists.lookup lt

/-- All members reachable from a class's own member lists, their attached
groups, and its class-level member groups — the pool the aggregator can
draw from for that class. -/
def classMembers (ci : ClassInfo) : List Member :=
  (ci.memberLists.map (fun p => p.2.members ++ p.2.memberGroupList.flatten)).flatten
    ++ (ci.memberGroups.map MemberGroup.members).flatten

/-- A symbol graph is well formed when every member listed under a class
reports that class as its owner (`MemberDef::getClassDef`), so members of
distinct classes are distinct. -/
def EnvWellFormed (env : Env) : Prop :=
  ∀ p ∈ env, ∀ md ∈ classMembers p.2, md.ownerCls = p.1

instance (env : Env) : Decidable (EnvWellFormed env) := by
  unfold EnvWellFormed; infer_instance

/-! ## Inherited-member aggregator
(`InheritedMemberInfoListContext`, context.cpp 9908-10019) -/

/-- One element of the produced `InheritedMemberList`: the class the
members are inherited from, the combined member list, and the display
title (`InheritedMemberInfoContext::alloc(cd, combinedList, title)`). -/
structure InheritedMemberInfo : Type where
  cls : ClassId
  members : List Member
  title : String
deriving DecidableEq

/-- Model of `Private::addMemberList` (context.cpp 9911-9920): append to
the combined list every member of `ml` that is brief-section visible and
not reimplemented by `inheritedFrom`. -/
def InheritedMemberInfoListContext.Private.addMemberList
    (inheritedFrom : ClassId) (ml : List Member) (combinedList : List Member) :
    List Member :=
  combinedList ++ ml.filter (fun md =>
    md.isBriefSectionVisible && !(md.reimplementedBy.contains inheritedFrom))

/-- Model of `Private::addMemberListIncludingGrouped` (context.cpp
9921-9931): the list's direct members, then the members of each group
attached to the list. -/
def InheritedMemberInfoListContext.Private.addMemberListIncludingGrouped
    (inheritedFrom : ClassId) (ml : Option MemberListModel)
    (combinedList : List Member) : List Member :=
  match ml with
  | none => combinedList
  | some l =>
    let c := InheritedMemberInfoListContext.Private.addMemberList
      inheritedFrom l.members combinedList
    l.memberGroupList.foldl (fun acc g =>
      InheritedMemberInfoListContext.Private.addMemberList inheritedFrom g acc) c

/-- Model of `Private::addMemberGroupsOfClass` (context.cpp 9932-9952):
for each class-level member group sitting in its own section, append its
members of the given list type that survive the visibility and
reimplementation filters. -/
def InheritedMemberInfoListContext.Private.addMemberGroupsOfClass
    (inheritedFrom : ClassId) (ci : ClassInfo) (lt : Int)
    (combinedList : List Member) : List Member :=
  ci.memberGroups.foldl (fun acc mg =>
    if !mg.members.isEmpty && (!mg.allMembersInSameSection || !ci.subGrouping) then
      acc ++ mg.members.filter (fun md =>
        lt == md.sectionListType &&
        !(md.reimplementedBy.contains inheritedFrom) &&
        md.isBriefSectionVisible)
    else acc) combinedList

/-- Model of `Private::addInheritedMembers` (context.cpp 9953-9970): when
the class has countable members for the translated list type(s), build the
combined list from its member lists and groups and append one
`InheritedMemberInfo` entry for it. -/
def InheritedMemberInfoListContext.Private.addInheritedMembers
    (env : Env) (inheritedFrom cdId : ClassId) (lt lt1 lt2 : Int)
    (title : String) (additionalList : Bool)
    (acc : List InheritedMemberInfo) : List InheritedMemberInfo :=
  let cd := getClass env cdId
  let count := cd.countMembersIncludingGrouped lt1 inheritedFrom additionalList +
    (if lt2 != -1 then cd.countMembersIncludingGrouped lt2 inheritedFrom additionalList else 0)
  if count > 0 then
    let ml := getMemberList cd lt1
    let ml2 := if lt2 != -1 then getMemberList cd lt2 else none
    let c := InheritedMemberInfoListContext.Private.addMemberListIncludingGrouped
      inheritedFrom ml []
    let c := InheritedMemberInfoListContext.Private.addMemberListIncludingGrouped
      inheritedFrom ml2 c
    let c := InheritedMemberInfoListContext.Private.addMemberGroupsOfClass
      inheritedFrom cd lt c
    let c := if lt2 != -1 then
        InheritedMemberInfoListContext.Private.addMemberGroupsOfClass
          inheritedFrom cd lt2 c
      else c
    acc ++ [⟨cdId, c, title⟩]
  else acc

mutual

/-- Model of `Private::findInheritedMembers` (context.cpp 9971-9999).
`conv` stands for the external protection-conversion table
`convertProtectionLevel(lt, prot, &lt1, &lt3)` (defined outside this
translation unit); the traversal is parametric in it.  The mutable
`ClassDefSet &visitedClasses` and the growing context list become
explicitly threaded state; `fuel` bounds the recursion depth (the C++
call stack). -/
def InheritedMemberInfoListContext.Private.findInheritedMembers
    (conv : Int → Protection → Int × Int) (env : Env) :
    Nat → ClassId → ClassId → Int → Int → String → Bool →
    List ClassId → List InheritedMemberInfo →
    List ClassId × List InheritedMemberInfo
  | 0, _, _, _, _, _, _, visited, acc => (visited, acc)
  | Nat.succ fuel, inheritedFrom, cdId, lt, lt2, title, additionalList, visited, acc =>
    InheritedMemberInfoListContext.Private.findLoop conv env fuel inheritedFrom
      (getClass env cdId).baseClasses lt lt2 title additionalList visited acc
termination_by fuel _ _ _ _ _ _ _ _ => (fuel, 0)

/-- The `for (const auto &ibcd : cd->baseClasses())` loop body of
`findInheritedMembers`: translate the protection level, update the
(mutated) `lt2` parameter, and — for an unvisited linkable base — mark it
visited, emit its aggregate entry and recurse into its own bases. -/
def InheritedMemberInfoListContext.Private.findLoop
    (conv : Int → Protection → Int × Int) (env : Env) (fuel : Nat)
    (inheritedFrom : ClassId) :
    List BaseClassDef → Int → Int → String → Bool →
    List ClassId → List InheritedMemberInfo →
    List ClassId × List InheritedMemberInfo
  | [], _, _, _, _, visited, acc => (visited, acc)
  | ibcd :: rest, lt, lt2, title, additionalList, visited, acc =>
    let icd := ibcd.classDef
    if (getClass env icd).isLinkable then
      let p := conv lt ibcd.prot
      let lt1 := p.1
      let lt3 := p.2
      let lt2' := if lt2 == -1 && lt3 != -1 then lt3 else lt2
      if visited.contains icd then
        InheritedMemberInfoListContext.Private.findLoop conv env fuel inheritedFrom
          rest lt lt2' title additionalList visited acc
      else
        let visited' := icd :: visited
        if lt1 != -1 then
          let acc' := InheritedMemberInfoListContext.Private.addInheritedMembers
            env inheritedFrom icd lt lt1 lt2' title additionalList acc
          let r := InheritedMemberInfoListContext.Private.findInheritedMembers
            conv env fuel inheritedFrom icd lt1 lt2' title additionalList visited' acc'
          InheritedMemberInfoListContext.Private.findLoop conv env fuel inheritedFrom
            rest lt lt2' title additionalList r.1 r.2
        else
          InheritedMemberInfoListContext.Private.findLoop conv env fuel inheritedFrom
            rest lt lt2' title additionalList visited' acc
    else
      InheritedMemberInfoListContext.Private.findLoop conv env fuel inheritedFrom
        rest lt lt2 title additionalList visited acc
termination_by bcl _ _ _ _ _ _ => (fuel, bcl.length + 1)

end

/-- Model of `InheritedMemberInfoListContext::addMemberList` (context.cpp
10007-10019): a fresh visited set is created for this one `(cd, lt)`
aggregation; the traversal runs only when the bucket selected by
`additionalList` matches the class's own same-category member count. -/
def InheritedMemberInfoListContext.addMemberList
    (conv : Int → Protection → Int × Int) (env : Env) (fuel : Nat)
    (cd : ClassId) (lt : Int) (title : String) (additionalList : Bool) :
    List InheritedMemberInfo :=
  let visited : List ClassId := []
  let memberInSection := (getClass env cd).countMembersIncludingGrouped lt cd false > 0
  let show' := (additionalList && !memberInSection) ||
               (!additionalList && memberInSection)
  if show' then
    (InheritedMemberInfoListContext.Private.findInheritedMembers
      conv env fuel cd cd lt (-1) title additionalList visited []).2
  else []

/-! ## Class-hierarchy nesting tree
(`NestingNodeContext::Private::addClasses`, context.cpp 6643-6675, and
`NestingContext::Private::addDerivedClasses` / `addClassHierarchy`,
context.cpp 7086-7143)

A hierarchy node records its class and its lazily built children.  The
visibility helpers `classHasVisibleChildren` and `hasVisibleRoot` live in
a different translation unit (util.cpp); the builder is parametric in
them. -/

inductive HNode : Type where
  | mk (cls : ClassId) (children : List HNode) : HNode

def HNode.cls : HNode → ClassId
  | .mk c _ => c

def HNode.children : HNode → List HNode
  | .mk _ cs => cs

/-- External visibility predicates consumed by the hierarchy builder
(declared in util.h, implemented outside this translation unit). -/
structure ExtVis : Type where
  classHasVisibleChildren : ClassId → Bool
  hasVisibleRoot : List BaseClassDef → Bool

mutual

/-- Model of `NestingNodeContext::Private::addClasses` on the
`inherit == true` path (context.cpp 6648-6663), the path exercised by
class-hierarchy construction (the `inherit == false` branch builds
containment children and belongs to the containment tree builder).  The
returned list is the children the node's constructor stores; the visited
set is threaded through.  `fuel` bounds the recursion depth. -/
def NestingNodeContext.addClassesInherit (ext : ExtVis) (env : Env) :
    Nat → ClassId → Bool → List ClassId → Option (List HNode × List ClassId)
  | 0, _, _, _ => none
  | Nat.succ fuel, cd, hideSuper, visitedClasses =>
    let ci := getClass env cd
    let hasChildren := !(visitedClasses.contains cd) && !hideSuper &&
      ext.classHasVisibleChildren cd
    if hasChildren then
      let visited' := cd :: visitedClasses
      if ci.languageIsVHDL then
        NestingContext.addDerivedClasses ext env fuel ci.baseClasses false visited'
      else
        NestingContext.addDerivedClasses ext env fuel ci.subClasses false visited'
    else
      some ([], visitedClasses)
termination_by fuel _ _ _ => (fuel, 0)

/-- Model of `NestingContext::Private::addDerivedClasses` (context.cpp
7086-7114): for each base-class edge, skip non-entity VHDL classes, then
append a `NestingNodeContext` node (whose constructor immediately builds
its children via `addClasses(inherit=TRUE, hideSuper, visited)`) when the
class is visible in the hierarchy and has a visible root. -/
def NestingContext.addDerivedClasses (ext : ExtVis) (env : Env) (fuel : Nat) :
    List BaseClassDef → Bool → List ClassId → Option (List HNode × List ClassId)
  | [], _, visitedClasses => some ([], visitedClasses)
  | bcd :: rest, hideSuper, visitedClasses =>
    let cd := bcd.classDef
    let ci := getClass env cd
    if ci.languageIsVHDL && !ci.vhdlIsEntityClass then
      NestingContext.addDerivedClasses ext env fuel rest hideSuper visitedClasses
    else
      let b := if ci.languageIsVHDL then ext.hasVisibleRoot ci.subClasses
               else ext.hasVisibleRoot ci.baseClasses
      if ci.isVisibleInHierarchy && b then
        match NestingNodeContext.addClassesInherit ext env fuel cd hideSuper visitedClasses with
        | none => none
        | some r =>
          match NestingContext.addDerivedClasses ext env fuel rest hideSuper r.2 with
          | none => none
          | some rs => some (HNode.mk cd r.1 :: rs.1, rs.2)
      else
        NestingContext.addDerivedClasses ext env fuel rest hideSuper visitedClasses
termination_by bcl _ _ => (fuel, bcl.length + 1)

end

/-- Model of `NestingContext::Private::addClassHierarchy` (context.cpp
7115-7143): every class of the flat collection that is (for VHDL, an
entity class) without a visible root and visible in the hierarchy becomes
a new root-level node, built with `inherit=TRUE`, `hideSuper=FALSE` and
the one shared visited set. -/
def NestingContext.addClassHierarchy (ext : ExtVis) (env : Env) (fuel : Nat) :
    List ClassId → List ClassId → Option (List HNode × List ClassId)
  | [], visitedClasses => some ([], visitedClasses)
  | cd :: rest, visitedClasses =>
    let ci := getClass env cd
    if ci.languageIsVHDL && !ci.vhdlIsEntityClass then
      NestingContext.addClassHierarchy ext env fuel rest visitedClasses
    else
      let b := if ci.languageIsVHDL then !(ext.hasVisibleRoot ci.subClasses)
               else !(ext.hasVisibleRoot ci.baseClasses)
      if b && ci.isVisibleInHierarchy then
        match NestingNodeContext.addClassesInherit ext env fuel cd false visitedClasses with
        | none => none
        | some r =>
          match NestingContext.addClassHierarchy ext env fuel rest r.2 with
          | none => none
          | some rs => some (HNode.mk cd r.1 :: rs.1, rs.2)
      else
        NestingContext.addClassHierarchy ext env fuel rest visitedClasses

/-- Flatten a forest of hierarchy nodes into the list of all its nodes
(each still carrying its children), for stating facts about the built
tree. -/
def flattenForest : List HNode → List HNode
  | [] => []
  | HNode.mk c cs :: rest => HNode.mk c cs :: (flattenForest cs ++ flattenForest rest)

/-- The number of environment classes not yet in the visited set: the
quantity that shrinks at every hierarchy expansion and bounds the
recursion depth. -/
def unvisitedCount (env : Env) (visitedClasses : List ClassId) : Nat :=
  ((env.map Prod.fst).filter (fun c => !(visitedClasses.contains c))).length

/-! ## Claims about the property tables -/

/-- A two-property table for a mock symbol named `"Foo"` with
`isLinkable = true`, registered the way every `Context::Private`
constructor registers its properties. -/
def mockSymbolTable : PropertyMapper Unit :=
  (((PropertyMapper.mk []).addProperty "name"
      (fun _ => TemplateVariant.str "Foo")).1.addProperty "isLinkable"
      (fun _ => TemplateVariant.bool true)).1

/-- Claim C7: for every property table and object, looking up a name that
was never registered returns the invalid (`None`) variant — no accessor is
invoked — and looking up a registered name returns its accessor applied to
the object. -/
theorem c7_theorem {T : Type} (pm : PropertyMapper T) (obj : T) (name : String) :
    (pm.m_map.lookup name = none → pm.get obj name = TemplateVariant.invalid) ∧
    (∀ f, pm.m_map.lookup name = some f → pm.get obj name = f obj) := by
  constructor
  · intro h
    simp [PropertyMapper.get, h]
  · intro f h
    simp [PropertyMapper.get, h]

/-- Witness for C7 on the mock table: an unregistered name yields the
invalid variant, a registered one yields its accessor's value. -/
theorem c7_witness :
    mockSymbolTable.get () "nonexistent-name" = TemplateVariant.invalid ∧
    mockSymbolTable.get () "name" = TemplateVariant.str "Foo" :=
  ⟨(c7_theorem mockSymbolTable () "nonexistent-name").1 rfl,
   (c7_theorem mockSymbolTable () "name").2 (fun _ => TemplateVariant.str "Foo") rfl⟩

/-- Claim C8: `fields()` enumerates exactly the registered names in
lexicographic order (sorted, and a permutation of the key set) — being a
pure function of the table, the enumeration is the same on every call —
and the two-property example table enumerates as
`["isLinkable", "name"]`. -/
theorem c8_theorem {T : Type} (pm : PropertyMapper T) :
    List.Sorted (· ≤ ·) pm.fields ∧
    pm.fields.Perm (pm.m_map.map Prod.fst) ∧
    mockSymbolTable.fields = ["isLinkable", "name"] := by
  refine ⟨List.sorted_insertionSort _ _, List.perm_insertionSort _ _, ?_⟩
  show List.insertionSort (· ≤ ·) ["name", "isLinkable"] = _
  simp [List.insertionSort, List.orderedInsert]
  decide

/-- Claim C9: registering a property under an already-registered name
reports an error (the returned flag) and leaves the table completely
unchanged, so every later `get` behaves exactly as before. -/
theorem c9_theorem {T : Type} (pm : PropertyMapper T) (name : String)
    (g : T → TemplateVariant) (h : (pm.m_map.lookup name).isSome = true) :
    pm.addProperty name g = (pm, true) ∧
    (∀ obj n, ((pm.addProperty name g).1).get obj n = pm.get obj n) := by
  have h1 : pm.addProperty name g = (pm, true) := by
    simp [PropertyMapper.addProperty, h]
  exact ⟨h1, fun obj n => by rw [h1]⟩

/-- Witness for C9: re-registering `"name"` on the mock table is rejected
and the table is untouched. -/
theorem c9_witness :
    mockSymbolTable.addProperty "name" (fun _ => TemplateVariant.str "Bar") =
      (mockSymbolTable, true) ∧
    (∀ obj n, ((mockSymbolTable.addProperty "name"
        (fun _ => TemplateVariant.str "Bar")).1).get obj n =
      mockSymbolTable.get obj n) :=
  c9_theorem mockSymbolTable "name" (fun _ => TemplateVariant.str "Bar") rfl

/-! ## Claims about the per-symbol documentation cache -/

/-- Claim C6: a text-like cached property (here `details`) is recomputed —
the parser invoked once — exactly when the slot is unset or was computed
for a different output format, and the recomputed value is stored together
with the current format; otherwise the stored value is returned with no
parser invocation.  Consequently an immediately repeated request in the
same format parses zero further times and returns the same value, a first
request on a fresh cache parses once, and one request in each of two
different formats from a fresh cache parses exactly twice. -/
theorem c6_theorem (parseDocDetails : ContextOutputFormat → TemplateVariant)
    (fmt : ContextOutputFormat) (cache : Cachable) :
    (cache.details = none ∨ fmt ≠ cache.detailsOutputFormat →
      DefinitionContext.details parseDocDetails fmt cache =
        (parseDocDetails fmt,
         { cache with details := some (parseDocDetails fmt),
                      detailsOutputFormat := fmt }, 1)) ∧
    (∀ v, cache.details = some v → fmt = cache.detailsOutputFormat →
      DefinitionContext.details parseDocDetails fmt cache = (v, cache, 0)) ∧
    ((DefinitionContext.details parseDocDetails fmt
        (DefinitionContext.details parseDocDetails fmt cache).2.1).2.2 = 0 ∧
     (DefinitionContext.details parseDocDetails fmt
        (DefinitionContext.details parseDocDetails fmt cache).2.1).1 =
       (DefinitionContext.details parseDocDetails fmt cache).1) ∧
    ((DefinitionContext.details parseDocDetails fmt Cachable.fresh).2.2 = 1) ∧
    (∀ fmt2, fmt ≠ fmt2 →
      (DefinitionContext.details parseDocDetails fmt2
        (DefinitionContext.details parseDocDetails fmt Cachable.fresh).2.1).2.2 = 1) := by
  refine ⟨?_, ?_, ?_, ?_, ?_⟩
  · intro h
    have hc : (cache.details.isNone || fmt != cache.detailsOutputFormat) = true := by
      rcases h with h | h
      · simp [h]
      · simp [bne_iff_ne, h]
    simp [DefinitionContext.details, hc]
  · intro v hv hf
    have hc : (cache.details.isNone || fmt != cache.detailsOutputFormat) = false := by
      simp [hv, bne_iff_ne, hf]
    simp [DefinitionContext.details, hc, hv, hf]
  · by_cases hc : (cache.details.isNone || fmt != cache.detailsOutputFormat) = true
    · have h1 : DefinitionContext.details parseDocDetails fmt cache =
          (parseDocDetails fmt,
           { cache with details := some (parseDocDetails fmt),
                        detailsOutputFormat := fmt }, 1) := by
        simp [DefinitionContext.details, hc]
      rw [h1]
      simp [DefinitionContext.details]
    · obtain ⟨hn, hfe⟩ : ¬cache.details = none ∧ fmt = cache.detailsOutputFormat := by
        simpa using hc
      rcases h : cache.details with _ | v
      · exact absurd h hn
      · have h1 : DefinitionContext.details parseDocDetails fmt cache = (v, cache, 0) := by
          simp [DefinitionContext.details, h, hfe]
        rw [h1]
        simp [DefinitionContext.details, h, hfe]
  · simp [DefinitionContext.details, Cachable.fresh]
  · intro fmt2 hne
    have h1 : (DefinitionContext.details parseDocDetails fmt Cachable.fresh).2.1 =
        { Cachable.fresh with details := some (parseDocDetails fmt),
                              detailsOutputFormat := fmt } := by
      simp [DefinitionContext.details, Cachable.fresh]
    rw [h1]
    simp [DefinitionContext.details, Ne.symm hne]

/-- Witness for C6 at a concrete parser, format and cache: recomputation
happens on a fresh cache, and the Html-then-Latex sequence parses twice. -/
theorem c6_witness :
    DefinitionContext.details (fun _ => TemplateVariant.str "d")
      ContextOutputFormat.Html Cachable.fresh =
      (TemplateVariant.str "d",
       { Cachable.fresh with details := some (TemplateVariant.str "d"),
                             detailsOutputFormat := ContextOutputFormat.Html }, 1) ∧
    (DefinitionContext.details (fun _ => TemplateVariant.str "d")
      ContextOutputFormat.Latex
      (DefinitionContext.details (fun _ => TemplateVariant.str "d")
        ContextOutputFormat.Html Cachable.fresh).2.1).2.2 = 1 :=
  ⟨(c6_theorem (fun _ => TemplateVariant.str "d")
      ContextOutputFormat.Html Cachable.fresh).1 (Or.inl rfl),
   (c6_theorem (fun _ => TemplateVariant.str "d")
      ContextOutputFormat.Html Cachable.fresh).2.2.2.2 ContextOutputFormat.Latex
      (by decide)⟩

/-- For a definition with no brief description, every `brief` access from
a cache holding nothing or the empty string keeps that invariant, returns
the empty string variant, and never invokes the parser. -/
theorem briefRun_no_description (parseDocBrief : ContextOutputFormat → TemplateVariant)
    (fmts : List ContextOutputFormat) :
    ∀ cache : Cachable,
      cache.brief = none ∨ cache.brief = some (TemplateVariant.str "") →
      (∀ v ∈ (DefinitionContext.briefRun false parseDocBrief fmts cache).1,
        v = TemplateVariant.str "") ∧
      (DefinitionContext.briefRun false parseDocBrief fmts cache).2.2 = 0 := by
  induction fmts with
  | nil => intro cache _; simp [DefinitionContext.briefRun]
  | cons fmt rest ih =>
    intro cache h
    by_cases hc : (cache.brief.isNone || fmt != cache.briefOutputFormat) = true
    · have hstep : DefinitionContext.brief false parseDocBrief fmt cache =
          (TemplateVariant.str "",
           { cache with brief := some (TemplateVariant.str "") }, 0) := by
        simp [DefinitionContext.brief, hc]
      have hrest := ih { cache with brief := some (TemplateVariant.str "") }
        (Or.inr rfl)
      simp only [DefinitionContext.briefRun, hstep]
      exact ⟨fun v hv => by
        rcases List.mem_cons.1 hv with hv | hv
        · exact hv
        · exact hrest.1 v hv, by simpa using hrest.2⟩
    · obtain ⟨hn, hfe⟩ : ¬cache.brief = none ∧ fmt = cache.briefOutputFormat := by
        simpa using hc
      have hv : cache.brief = some (TemplateVariant.str "") := by
        rcases h with h | h
        · exact absurd h hn
        · exact h
      have hstep : DefinitionContext.brief false parseDocBrief fmt cache =
          (TemplateVariant.str "", cache, 0) := by
        simp [DefinitionContext.brief, hv, hfe]
      have hrest := ih cache h
      simp only [DefinitionContext.briefRun, hstep]
      exact ⟨fun v hvm => by
        rcases List.mem_cons.1 hvm with hvm | hvm
        · exact hvm
        · exact hrest.1 v hvm, by simpa using hrest.2⟩

/-- Claim C10: for a symbol whose definition has no brief description,
every `brief` access across any sequence of output formats — starting from
the fresh cache the `Cachable` constructor installs — returns the empty
string variant (not `None`), and the documentation parser is never
invoked. -/
theorem c10_theorem (parseDocBrief : ContextOutputFormat → TemplateVariant)
    (fmts : List ContextOutputFormat) :
    (∀ v ∈ (DefinitionContext.briefRun false parseDocBrief fmts Cachable.fresh).1,
      v = TemplateVariant.str "") ∧
    (DefinitionContext.briefRun false parseDocBrief fmts Cachable.fresh).2.2 = 0 :=
  briefRun_no_description parseDocBrief fmts Cachable.fresh (Or.inl rfl)

/-- Witness for C10: two Html accesses and one Latex access on a
brief-less definition all yield the empty string with zero parses. -/
theorem c10_witness :
    (∀ v ∈ (DefinitionContext.briefRun false (fun _ => TemplateVariant.str "B")
      [ContextOutputFormat.Html, ContextOutputFormat.Html, ContextOutputFormat.Latex]
      Cachable.fresh).1, v = TemplateVariant.str "") ∧
    (DefinitionContext.briefRun false (fun _ => TemplateVariant.str "B")
      [ContextOutputFormat.Html, ContextOutputFormat.Html, ContextOutputFormat.Latex]
      Cachable.fresh).2.2 = 0 :=
  c10_theorem (fun _ => TemplateVariant.str "B")
    [ContextOutputFormat.Html, ContextOutputFormat.Html, ContextOutputFormat.Latex]

/-! ## Claims about the depth metrics -/

mutual

/-- `computeNumNodesAtLevel` is monotone in the level limit. -/
theorem computeNumNodesAtLevel_mono (t : TNode) (level m1 m2 : Nat) (h : m1 ≤ m2) :
    computeNumNodesAtLevel t level m1 ≤ computeNumNodesAtLevel t level m2 := by
  cases t with
  | node cs =>
    by_cases h1 : level < m1
    · have h2 : level < m2 := lt_of_lt_of_le h1 h
      simp only [computeNumNodesAtLevel, if_pos h1, if_pos h2]
      exact Nat.add_le_add_left
        (computeNumNodesAtLevelList_mono cs (level + 1) m1 m2 h) 1
    · simp only [computeNumNodesAtLevel, if_neg h1]
      exact Nat.zero_le _

/-- List version of `computeNumNodesAtLevel_mono`. -/
theorem computeNumNodesAtLevelList_mono (l : List TNode) (level m1 m2 : Nat)
    (h : m1 ≤ m2) :
    computeNumNodesAtLevelList l level m1 ≤ computeNumNodesAtLevelList l level m2 := by
  cases l with
  | nil => simp [computeNumNodesAtLevelList]
  | cons c rest =>
    simp only [computeNumNodesAtLevelList]
    exact Nat.add_le_add (computeNumNodesAtLevel_mono c level m1 m2 h)
      (computeNumNodesAtLevelList_mono rest level m1 m2 h)

end

/-- Fuel-indexed form of `preferredDepthLoop_sound`, by induction on an
upper bound of the remaining iteration count. -/
theorem preferredDepthLoop_sound_aux (list : List TNode) (T : Int) (depth : Nat) :
    ∀ n i preferredDepth, depth + 1 - i ≤ n →
      preferredDepthLoop list T depth i preferredDepth = preferredDepth ∨
      (i ≤ preferredDepthLoop list T depth i preferredDepth ∧
       preferredDepthLoop list T depth i preferredDepth ≤ depth ∧
       (computeNumNodesAtLevelList list 0
          (preferredDepthLoop list T depth i preferredDepth) : Int) ≤ T) := by
  intro n
  induction n with
  | zero =>
    intro i preferredDepth hn
    have : ¬ i ≤ depth := by omega
    left
    rw [preferredDepthLoop, if_neg this]
  | succ n ih =>
    intro i preferredDepth hn
    by_cases hle : i ≤ depth
    · by_cases hnum : (computeNumNodesAtLevelList list 0 i : Int) ≤ T
      · rw [preferredDepthLoop, if_pos hle]
        simp only [if_pos hnum]
        rcases ih (i + 1) i (by omega) with hrec | hrec
        · right
          rw [hrec]
          exact ⟨le_refl i, hle, hnum⟩
        · right
          exact ⟨le_trans (Nat.le_succ i) hrec.1, hrec.2.1, hrec.2.2⟩
      · left
        rw [preferredDepthLoop, if_pos hle]
        simp only [if_neg hnum]
    · left
      rw [preferredDepthLoop, if_neg hle]

/-- The scanning loop either returns its incoming candidate or a depth in
`[i, depth]` whose node-count sum stays within the threshold. -/
theorem preferredDepthLoop_sound (list : List TNode) (T : Int) (depth : Nat)
    (i preferredDepth : Nat) :
    preferredDepthLoop list T depth i preferredDepth = preferredDepth ∨
    (i ≤ preferredDepthLoop list T depth i preferredDepth ∧
     preferredDepthLoop list T depth i preferredDepth ≤ depth ∧
     (computeNumNodesAtLevelList list 0
        (preferredDepthLoop list T depth i preferredDepth) : Int) ≤ T) :=
  preferredDepthLoop_sound_aux list T depth (depth + 1 - i) i preferredDepth
    (le_refl _)

/-- The scanning loop never returns less than any depth `k ≥ i` all of
whose predecessors down to `i` stay within the threshold. -/
theorem preferredDepthLoop_ge (list : List TNode) (T : Int) (depth : Nat) :
    ∀ n i preferredDepth k, depth + 1 - i ≤ n → i ≤ k → k ≤ depth →
      (∀ j, i ≤ j → j ≤ k → (computeNumNodesAtLevelList list 0 j : Int) ≤ T) →
      k ≤ preferredDepthLoop list T depth i preferredDepth := by
  intro n
  induction n with
  | zero =>
    intro i preferredDepth k hn hik hkd _
    omega
  | succ n ih =>
    intro i preferredDepth k hn hik hkd hall
    have hle : i ≤ depth := le_trans hik hkd
    have hnum : (computeNumNodesAtLevelList list 0 i : Int) ≤ T :=
      hall i (le_refl i) hik
    rw [preferredDepthLoop, if_pos hle]
    simp only [if_pos hnum]
    by_cases hik' : i = k
    · subst hik'
      rcases preferredDepthLoop_sound list T depth (i + 1) i with hs | hs
      · rw [hs]
      · exact le_trans (Nat.le_succ i) hs.1
    · exact ih (i + 1) i k (by omega) (by omega) hkd
        (fun j hj1 hj2 => hall j (by omega) hj2)

/-- The empty tree has depth `0`; a nonempty root list has depth at
least `1`. -/
theorem computeMaxDepth_pos (list : List TNode) (h : list ≠ []) :
    1 ≤ computeMaxDepth list := by
  cases list with
  | nil => exact absurd rfl h
  | cons t rest =>
    cases t with
    | node cs =>
      rw [computeMaxDepth]
      omega

/-- Claim C4: the preferred-depth computation returns `1` when the
threshold is non-positive; otherwise it scans depths `1..maxDepth` in
increasing order, the result is the largest depth whose summed node count
stays within the threshold (scanning stops at the first depth that
exceeds it, which by monotonicity of the counts loses no candidate), it
stays at the initial default `1` when even depth 1 exceeds the threshold,
and any returned depth greater than `1` has its sum within the
threshold. -/
theorem c4_theorem (list : List TNode) (T : Int) :
    (T ≤ 0 → computePreferredDepth list (computeMaxDepth list) T = 1) ∧
    (0 < T → T < (computeNumNodesAtLevelList list 0 1 : Int) →
      computePreferredDepth list (computeMaxDepth list) T = 1) ∧
    (0 < T → ∀ i, 1 ≤ i → i ≤ computeMaxDepth list →
      (computeNumNodesAtLevelList list 0 i : Int) ≤ T →
      i ≤ computePreferredDepth list (computeMaxDepth list) T) ∧
    (0 < T → computePreferredDepth list (computeMaxDepth list) T = 1 ∨
      (computePreferredDepth list (computeMaxDepth list) T ≤ computeMaxDepth list ∧
       (computeNumNodesAtLevelList list 0
         (computePreferredDepth list (computeMaxDepth list) T) : Int) ≤ T)) := by
  refine ⟨?_, ?_, ?_, ?_⟩
  · intro hT
    rw [computePreferredDepth, if_neg (by omega)]
  · intro hT hnum
    rw [computePreferredDepth, if_pos hT]
    by_cases hle : 1 ≤ computeMaxDepth list
    · rw [preferredDepthLoop, if_pos hle]
      simp only [if_neg (by omega : ¬ (computeNumNodesAtLevelList list 0 1 : Int) ≤ T)]
    · rw [preferredDepthLoop, if_neg hle]
  · intro hT i h1 hmd hnum
    rw [computePreferredDepth, if_pos hT]
    refine preferredDepthLoop_ge list T (computeMaxDepth list)
      (computeMaxDepth list + 1 - 1) 1 1 i (le_refl _) h1 hmd ?_
    intro j hj1 hj2
    calc (computeNumNodesAtLevelList list 0 j : Int)
        ≤ (computeNumNodesAtLevelList list 0 i : Int) := by
          exact_mod_cast computeNumNodesAtLevelList_mono list 0 j i hj2
      _ ≤ T := hnum
  · intro hT
    rw [computePreferredDepth, if_pos hT]
    rcases preferredDepthLoop_sound list T (computeMaxDepth list) 1 1 with hs | hs
    · left; exact hs
    · right; exact ⟨hs.2.1, hs.2.2⟩

/-- Witness for C4 at the spec's concrete containment scenario
`[F1, D1{F2}]` with threshold `T = 2`: the maximum depth is `2`, the
preferred depth is `1`, and the theorem's maximality part places `1` below
the computed preferred depth. -/
theorem c4_witness :
    computeMaxDepth [TNode.node [], TNode.node [TNode.node []]] = 2 ∧
    computePreferredDepth [TNode.node [], TNode.node [TNode.node []]] 2 2 = 1 ∧
    1 ≤ computePreferredDepth [TNode.node [], TNode.node [TNode.node []]]
          (computeMaxDepth [TNode.node [], TNode.node [TNode.node []]]) 2 := by
  have hmd : computeMaxDepth [TNode.node [], TNode.node [TNode.node []]] = 2 := by
    simp [computeMaxDepth]
  have hn1 : computeNumNodesAtLevelList [TNode.node [], TNode.node [TNode.node []]]
      0 1 = 2 := by
    simp [computeNumNodesAtLevelList, computeNumNodesAtLevel]
  have hn2 : computeNumNodesAtLevelList [TNode.node [], TNode.node [TNode.node []]]
      0 2 = 3 := by
    simp [computeNumNodesAtLevelList, computeNumNodesAtLevel]
  have hl2 : preferredDepthLoop [TNode.node [], TNode.node [TNode.node []]] 2 2 2 1
      = 1 := by
    rw [preferredDepthLoop]
    norm_num [hn2]
  have hl1 : preferredDepthLoop [TNode.node [], TNode.node [TNode.node []]] 2 2 1 1
      = 1 := by
    rw [preferredDepthLoop]
    norm_num [hn1, hl2]
  refine ⟨hmd, ?_, ?_⟩
  · rw [computePreferredDepth, if_pos (by norm_num)]
    exact hl1
  · refine (c4_theorem [TNode.node [], TNode.node [TNode.node []]] 2).2.2.1
      (by norm_num) 1 (le_refl 1) ?_ ?_
    · rw [hmd]; norm_num
    · rw [hn1]; norm_num

/-- Counterexample to claim C5 as stated: on the empty tree the computed
preferred depth (`1`) exceeds the computed maximum depth (`0`). -/
theorem c5_counterexample :
    ¬ (computePreferredDepth [] (computeMaxDepth []) 2 ≤ computeMaxDepth []) := by
  have h0 : computeMaxDepth [] = 0 := by simp [computeMaxDepth]
  rw [h0]
  rw [computePreferredDepth, if_pos (by norm_num), preferredDepthLoop,
    if_neg (by norm_num)]
  norm_num

/-- Claim C5 (amended): for every nonempty tree the preferred depth is at
most the maximum depth (on the empty tree the preferred depth is `1`
while the maximum depth is `0`); the cumulative node count at the
preferred depth stays within the threshold `T` whenever `T > 0` and the
depth-1 sum already does; and the preferred depth is `1` whenever
`T ≤ 0`. -/
theorem c5_theorem (list : List TNode) (T : Int) :
    (list ≠ [] →
      computePreferredDepth list (computeMaxDepth list) T ≤ computeMaxDepth list) ∧
    (T ≤ 0 → computePreferredDepth list (computeMaxDepth list) T = 1) ∧
    (0 < T → (computeNumNodesAtLevelList list 0 1 : Int) ≤ T →
      (computeNumNodesAtLevelList list 0
        (computePreferredDepth list (computeMaxDepth list) T) : Int) ≤ T) := by
  refine ⟨?_, ?_, ?_⟩
  · intro hne
    have hmd := computeMaxDepth_pos list hne
    by_cases hT : 0 < T
    · rcases (c4_theorem list T).2.2.2 hT with hs | hs
      · omega
      · exact hs.1
    · rw [computePreferredDepth, if_neg hT]
      exact hmd
  · exact (c4_theorem list T).1
  · intro hT h1
    rcases (c4_theorem list T).2.2.2 hT with hs | hs
    · rw [hs]; exact h1
    · exact hs.2

/-- Witness for C5 on the two-root scenario tree with `T = 2`. -/
theorem c5_witness :
    computePreferredDepth [TNode.node [], TNode.node [TNode.node []]]
        (computeMaxDepth [TNode.node [], TNode.node [TNode.node []]]) 2 ≤
      computeMaxDepth [TNode.node [], TNode.node [TNode.node []]] ∧
    (computeNumNodesAtLevelList [TNode.node [], TNode.node [TNode.node []]] 0
      (computePreferredDepth [TNode.node [], TNode.node [TNode.node []]]
        (computeMaxDepth [TNode.node [], TNode.node [TNode.node []]]) 2) : Int) ≤ 2 :=
  ⟨(c5_theorem [TNode.node [], TNode.node [TNode.node []]] 2).1
     (List.cons_ne_nil _ _),
   (c5_theorem [TNode.node [], TNode.node [TNode.node []]] 2).2.2 (by norm_num)
     (by
      have hn1 : computeNumNodesAtLevelList
          [TNode.node [], TNode.node [TNode.node []]] 0 1 = 2 := by
        simp [computeNumNodesAtLevelList, computeNumNodesAtLevel]
      rw [hn1]; norm_num)⟩

/-! ## Claims about the inherited-member aggregator -/

/-- A concrete protection-conversion table for the test scenarios: every
category translates to itself with no secondary category. -/
def convSame : Int → Protection → Int × Int := fun lt _ => (lt, -1)

/-- Class `0` with one own member of category `5` and a linkable base
class `1` carrying one inheritable member of the same category. -/
def envC1 : Env :=
  [(0, { ClassInfo.empty with
           baseClasses := [⟨1, Protection.Public⟩],
           countMembersIncludingGrouped := fun _ _ _ => 1 }),
   (1, { ClassInfo.empty with
           isLinkable := true,
           countMembersIncludingGrouped := fun _ _ _ => 1,
           memberLists := [(5, ⟨[⟨10, true, [], 5, 1⟩], []⟩)] })]

/-- Counterexample to claim C1 as stated: class `0` has visible
same-category members (`countMembersIncludingGrouped > 0`), yet the
`additionalList = true` call emits nothing while the
`additionalList = false` call emits the inherited members — the opposite
of the claimed bucket assignment. -/
theorem c1_counterexample :
    0 < (getClass envC1 0).countMembersIncludingGrouped 5 0 false ∧
    InheritedMemberInfoListContext.addMemberList convSame envC1 3 0 5 "t" true = [] ∧
    InheritedMemberInfoListContext.addMemberList convSame envC1 3 0 5 "t" false =
      [⟨1, [⟨10, true, [], 5, 1⟩], "t"⟩] := by
  refine ⟨by decide, ?_, ?_⟩
  · simp [InheritedMemberInfoListContext.addMemberList, envC1, getClass]
  · simp [InheritedMemberInfoListContext.addMemberList,
      InheritedMemberInfoListContext.Private.findInheritedMembers,
      InheritedMemberInfoListContext.Private.findLoop,
      InheritedMemberInfoListContext.Private.addInheritedMembers,
      InheritedMemberInfoListContext.Private.addMemberListIncludingGrouped,
      InheritedMemberInfoListContext.Private.addMemberList,
      InheritedMemberInfoListContext.Private.addMemberGroupsOfClass,
      getClass, getMemberList, envC1, convSame, ClassInfo.empty,
      List.lookup, Option.getD]

/-- Claim C1 (amended): the bucket selection of
`InheritedMemberInfoListContext::addMemberList` is the reverse of the
claim's: when the class already has visible same-category members
(`countMembersIncludingGrouped > 0`) the inherited members are emitted by
the `additionalList = false` call (merging into the class's own
same-category section) and the `additionalList = true` call emits
nothing; when the count is zero they are emitted by the
`additionalList = true` call (the separate "additional inherited members"
list) and the `additionalList = false` call emits nothing. -/
theorem c1_theorem (conv : Int → Protection → Int × Int) (env : Env) (fuel : Nat)
    (cd : ClassId) (lt : Int) (title : String) :
    (0 < (getClass env cd).countMembersIncludingGrouped lt cd false →
      InheritedMemberInfoListContext.addMemberList conv env fuel cd lt title true = [] ∧
      InheritedMemberInfoListContext.addMemberList conv env fuel cd lt title false =
        (InheritedMemberInfoListContext.Private.findInheritedMembers conv env fuel
          cd cd lt (-1) title false [] []).2) ∧
    ((getClass env cd).countMembersIncludingGrouped lt cd false = 0 →
      InheritedMemberInfoListContext.addMemberList conv env fuel cd lt title false = [] ∧
      InheritedMemberInfoListContext.addMemberList conv env fuel cd lt title true =
        (InheritedMemberInfoListContext.Private.findInheritedMembers conv env fuel
          cd cd lt (-1) title true [] []).2) := by
  constructor
  · intro h
    constructor
    · simp [InheritedMemberInfoListContext.addMemberList, h]
    · simp [InheritedMemberInfoListContext.addMemberList, h]
  · intro h
    constructor
    · simp [InheritedMemberInfoListContext.addMemberList, h]
    · simp [InheritedMemberInfoListContext.addMemberList, h]

/-- Witness for the amended C1 on `envC1`, where class `0`'s own count is
positive. -/
theorem c1_witness :
    InheritedMemberInfoListContext.addMemberList convSame envC1 3 0 5 "u" true = [] ∧
    InheritedMemberInfoListContext.addMemberList convSame envC1 3 0 5 "u" false =
      (InheritedMemberInfoListContext.Private.findInheritedMembers convSame envC1 3
        0 0 5 (-1) "u" false [] []).2 :=
  (c1_theorem convSame envC1 3 0 5 "u").1 (by decide)

/-- A successful association-list lookup locates an actual entry. -/
theorem lookup_mem {α β : Type} [BEq α] [LawfulBEq α] :
    ∀ {l : List (α × β)} {a : α} {b : β}, List.lookup a l = some b → (a, b) ∈ l := by
  intro l
  induction l with
  | nil => intro a b h; simp [List.lookup] at h
  | cons p rest ih =>
    intro a b h
    rw [List.lookup] at h
    rcases hk : (a == p.1) with _ | _
    · rw [hk] at h
      exact List.mem_cons_of_mem _ (ih h)
    · rw [hk] at h
      have ha : a = p.1 := by simpa using hk
      have hb : b = p.2 := by simpa using h.symm
      subst ha; subst hb
      exact List.mem_cons_self _ _

/-- Members appended by `Private::addMemberList` come from the combined
list or from the member list. -/
theorem mem_of_private_addMemberList {inheritedFrom : ClassId} {ml combinedList : List Member}
    {md : Member}
    (h : md ∈ InheritedMemberInfoListContext.Private.addMemberList
      inheritedFrom ml combinedList) :
    md ∈ combinedList ∨ md ∈ ml := by
  rcases List.mem_append.mp h with h | h
  · exact Or.inl h
  · exact Or.inr (List.mem_of_mem_filter h)

/-- Members accumulated by the member-group fold of
`addMemberListIncludingGrouped` come from the accumulator or one of the
groups. -/
theorem mem_of_group_fold {inheritedFrom : ClassId} :
    ∀ (gl : List (List Member)) (c : List Member) (md : Member),
      md ∈ gl.foldl (fun acc g =>
        InheritedMemberInfoListContext.Private.addMemberList inheritedFrom g acc) c →
      md ∈ c ∨ ∃ g ∈ gl, md ∈ g := by
  intro gl
  induction gl with
  | nil => intro c md h; exact Or.inl h
  | cons g rest ih =>
    intro c md h
    rcases ih _ md h with h1 | ⟨g', hg', hmd⟩
    · rcases mem_of_private_addMemberList h1 with h2 | h2
      · exact Or.inl h2
      · exact Or.inr ⟨g, List.mem_cons_self _ _, h2⟩
    · exact Or.inr ⟨g', List.mem_cons_of_mem _ hg', hmd⟩

/-- Members appended by `addMemberListIncludingGrouped` come from the
combined list or from the (optional) member list's members or groups. -/
theorem mem_of_addMemberListIncludingGrouped {inheritedFrom : ClassId}
    {ml : Option MemberListModel} {combinedList : List Member} {md : Member}
    (h : md ∈ InheritedMemberInfoListContext.Private.addMemberListIncludingGrouped
      inheritedFrom ml combinedList) :
    md ∈ combinedList ∨
    ∃ l, ml = some l ∧ (md ∈ l.members ∨ ∃ g ∈ l.memberGroupList, md ∈ g) := by
  cases ml with
  | none => exact Or.inl h
  | some l =>
    rcases mem_of_group_fold l.memberGroupList _ md h with h1 | ⟨g, hg, hmd⟩
    · rcases mem_of_private_addMemberList h1 with h2 | h2
      · exact Or.inl h2
      · exact Or.inr ⟨l, rfl, Or.inl h2⟩
    · exact Or.inr ⟨l, rfl, Or.inr ⟨g, hg, hmd⟩⟩

/-- Members appended by `addMemberGroupsOfClass` come from the combined
list or from one of the class's member groups. -/
theorem mem_of_addMemberGroupsOfClass {inheritedFrom : ClassId} {ci : ClassInfo}
    {lt : Int} :
    ∀ (mgs : List MemberGroup) (c : List Member) (md : Member),
      md ∈ mgs.foldl (fun acc mg =>
        if !mg.members.isEmpty && (!mg.allMembersInSameSection || !ci.subGrouping) then
          acc ++ mg.members.filter (fun m =>
            lt == m.sectionListType &&
            !(m.reimplementedBy.contains inheritedFrom) &&
            m.isBriefSectionVisible)
        else acc) c →
      md ∈ c ∨ ∃ mg ∈ mgs, md ∈ mg.members := by
  intro mgs
  induction mgs with
  | nil => intro c md h; exact Or.inl h
  | cons mg rest ih =>
    intro c md h
    rcases ih _ md h with h1 | ⟨mg', hmg', hmd⟩
    · dsimp only at h1
      by_cases hc : (!mg.members.isEmpty &&
          (!mg.allMembersInSameSection || !ci.subGrouping)) = true
      · simp only [hc, if_true] at h1
        rcases List.mem_append.mp h1 with h2 | h2
        · exact Or.inl h2
        · exact Or.inr ⟨mg, List.mem_cons_self _ _, List.mem_of_mem_filter h2⟩
      · simp only [hc, if_false] at h1
        exact Or.inl h1
    · exact Or.inr ⟨mg', List.mem_cons_of_mem _ hmg', hmd⟩

/-- A member list registered under a class contributes only members of
that class's pool. -/
theorem classMembers_of_getMemberList {ci : ClassInfo} {lt : Int} {l : MemberListModel}
    (hl : getMemberList ci lt = some l) {md : Member}
    (h : md ∈ l.members ∨ ∃ g ∈ l.memberGroupList, md ∈ g) :
    md ∈ classMembers ci := by
  have hmem : (lt, l) ∈ ci.memberLists := lookup_mem hl
  apply List.mem_append_left
  rw [List.mem_flatten]
  refine ⟨l.members ++ l.memberGroupList.flatten, List.mem_map.mpr ⟨(lt, l), hmem, rfl⟩, ?_⟩
  rcases h with h | ⟨g, hg, hmd⟩
  · exact List.mem_append_left _ h
  · exact List.mem_append_right _ (List.mem_flatten.mpr ⟨g, hg, hmd⟩)

/-- A class-level member group contributes only members of the class's
pool. -/
theorem classMembers_of_memberGroup {ci : ClassInfo} {mg : MemberGroup}
    (hmg : mg ∈ ci.memberGroups) {md : Member} (h : md ∈ mg.members) :
    md ∈ classMembers ci := by
  apply List.mem_append_right
  rw [List.mem_flatten]
  exact ⟨mg.members, List.mem_map.mpr ⟨mg, hmg, rfl⟩, h⟩

/-- `addInheritedMembers` appends at most one entry, tagged with the
visited base class, whose members all come from that class's pool. -/
theorem addInheritedMembers_spec (env : Env) (inheritedFrom cdId : ClassId)
    (lt lt1 lt2 : Int) (title : String) (additionalList : Bool)
    (acc : List InheritedMemberInfo) :
    ∃ Δ, InheritedMemberInfoListContext.Private.addInheritedMembers env inheritedFrom
        cdId lt lt1 lt2 title additionalList acc = acc ++ Δ ∧
      (Δ = [] ∨ ∃ ms, Δ = [⟨cdId, ms, title⟩] ∧
        ∀ md ∈ ms, md ∈ classMembers (getClass env cdId)) := by
  rw [InheritedMemberInfoListContext.Private.addInheritedMembers]
  by_cases hcount : 0 < (getClass env cdId).countMembersIncludingGrouped lt1 inheritedFrom additionalList +
      (if lt2 != -1 then (getClass env cdId).countMembersIncludingGrouped lt2 inheritedFrom additionalList else 0)
  · rw [if_pos hcount]
    refine ⟨_, rfl, Or.inr ⟨_, rfl, ?_⟩⟩
    intro md hmd
    -- peel the four construction stages from the outside in
    by_cases hlt2 : (lt2 != -1) = true
    · rw [if_pos hlt2] at hmd
      rcases mem_of_addMemberGroupsOfClass _ _ md hmd with hmd | ⟨mg, hmg, h⟩
      · rcases mem_of_addMemberGroupsOfClass _ _ md hmd with hmd | ⟨mg, hmg, h⟩
        · rcases mem_of_addMemberListIncludingGrouped hmd with hmd | ⟨l, hl, h⟩
          · rcases mem_of_addMemberListIncludingGrouped hmd with hmd | ⟨l, hl, h⟩
            · simp at hmd
            · exact classMembers_of_getMemberList hl h
          · rcases hlt : (lt2 != -1) with _ | _
            · rw [hlt] at hl; simp at hl
            · rw [hlt] at hl
              exact classMembers_of_getMemberList hl h
        · exact classMembers_of_memberGroup hmg h
      · exact classMembers_of_memberGroup hmg h
    · rw [if_neg (by simpa using hlt2)] at hmd
      rcases mem_of_addMemberGroupsOfClass _ _ md hmd with hmd | ⟨mg, hmg, h⟩
      · rcases mem_of_addMemberListIncludingGrouped hmd with hmd | ⟨l, hl, h⟩
        · rcases mem_of_addMemberListIncludingGrouped hmd with hmd | ⟨l, hl, h⟩
          · simp at hmd
          · exact classMembers_of_getMemberList hl h
        · rcases hlt : (lt2 != -1) with _ | _
          · rw [hlt] at hl; simp at hl
          · rw [hlt] at hl
            exact classMembers_of_getMemberList hl h
      · exact classMembers_of_memberGroup hmg h
  · rw [if_neg hcount]
    exact ⟨[], (List.append_nil acc).symm, Or.inl rfl⟩

/-- The invariant carried through the inherited-member traversal: the
visited set only grows, and the context list grows by entries whose
classes were newly visited during the call, are pairwise distinct, and
whose members come from the entry's own class. -/
def FindInv (env : Env) (visited : List ClassId) (acc : List InheritedMemberInfo)
    (r : List ClassId × List InheritedMemberInfo) : Prop :=
  (∀ c ∈ visited, c ∈ r.1) ∧
  ∃ Δ, r.2 = acc ++ Δ ∧
    (∀ e ∈ Δ, e.cls ∈ r.1 ∧ e.cls ∉ visited ∧
      ∀ md ∈ e.members, md ∈ classMembers (getClass env e.cls)) ∧
    (Δ.map InheritedMemberInfo.cls).Nodup

/-- The invariant is stable under shrinking the input visited set. -/
theorem FindInv.weaken {env : Env} {visited : List ClassId} {icd : ClassId}
    {acc : List InheritedMemberInfo} {r : List ClassId × List InheritedMemberInfo}
    (h : FindInv env (icd :: visited) acc r) : FindInv env visited acc r := by
  obtain ⟨hmono, Δ, heq, hent, hnd⟩ := h
  refine ⟨fun c hc => hmono c (List.mem_cons_of_mem _ hc), Δ, heq, ?_, hnd⟩
  intro e he
  obtain ⟨h1, h2, h3⟩ := hent e he
  exact ⟨h1, fun hv => h2 (List.mem_cons_of_mem _ hv), h3⟩

/-- Trivial instance of the invariant for a call that returns its inputs
unchanged. -/
theorem FindInv.refl (env : Env) (visited : List ClassId)
    (acc : List InheritedMemberInfo) : FindInv env visited acc (visited, acc) :=
  ⟨fun _ hc => hc, [], (List.append_nil acc).symm, by simp, List.nodup_nil⟩

/-- One pass of the base-class loop of `findInheritedMembers` preserves
the traversal invariant, assuming every recursive descent (at the loop's
fuel) does. -/
theorem findLoop_inv (conv : Int → Protection → Int × Int) (env : Env) (fuel : Nat)
    (inheritedFrom : ClassId)
    (IH : ∀ cd lt lt2 title additionalList visited acc,
      FindInv env visited acc
        (InheritedMemberInfoListContext.Private.findInheritedMembers conv env fuel
          inheritedFrom cd lt lt2 title additionalList visited acc)) :
    ∀ bcl lt lt2 title additionalList visited acc,
      FindInv env visited acc
        (InheritedMemberInfoListContext.Private.findLoop conv env fuel inheritedFrom
          bcl lt lt2 title additionalList visited acc) := by
  intro bcl
  induction bcl with
  | nil =>
    intro lt lt2 title additionalList visited acc
    rw [InheritedMemberInfoListContext.Private.findLoop]
    exact FindInv.refl env visited acc
  | cons ibcd rest ih =>
    intro lt lt2 title additionalList visited acc
    rw [InheritedMemberInfoListContext.Private.findLoop]
    by_cases hlink : (getClass env ibcd.classDef).isLinkable = true
    · simp only [hlink, if_true]
      by_cases hvis : visited.contains ibcd.classDef = true
      · simp only [hvis, if_true]
        exact ih _ _ title additionalList visited acc
      · simp only [Bool.not_eq_true] at hvis
        simp only [hvis, Bool.false_eq_true, if_false]
        have hnotmem : ibcd.classDef ∉ visited := by
          intro hmem
          have hct : visited.contains ibcd.classDef = true := List.elem_iff.mpr hmem
          rw [hct] at hvis
          simp at hvis
        by_cases hlt1 : ((conv lt ibcd.prot).1 != -1) = true
        · simp only [hlt1, if_true]
          obtain ⟨Δ0, heq0, hcase0⟩ := addInheritedMembers_spec env inheritedFrom
            ibcd.classDef lt (conv lt ibcd.prot).1
            (if lt2 == -1 && (conv lt ibcd.prot).2 != -1 then (conv lt ibcd.prot).2 else lt2)
            title additionalList acc
          rw [heq0]
          obtain ⟨mono1, Δ1, heq1, hent1, hnd1⟩ := IH ibcd.classDef (conv lt ibcd.prot).1
            (if lt2 == -1 && (conv lt ibcd.prot).2 != -1 then (conv lt ibcd.prot).2 else lt2)
            title additionalList (ibcd.classDef :: visited) (acc ++ Δ0)
          obtain ⟨mono2, Δ2, heq2, hent2, hnd2⟩ := ih lt
            (if lt2 == -1 && (conv lt ibcd.prot).2 != -1 then (conv lt ibcd.prot).2 else lt2)
            title additionalList
            (InheritedMemberInfoListContext.Private.findInheritedMembers conv env fuel
              inheritedFrom ibcd.classDef (conv lt ibcd.prot).1
              (if lt2 == -1 && (conv lt ibcd.prot).2 != -1 then (conv lt ibcd.prot).2 else lt2)
              title additionalList (ibcd.classDef :: visited) (acc ++ Δ0)).1
            (InheritedMemberInfoListContext.Private.findInheritedMembers conv env fuel
              inheritedFrom ibcd.classDef (conv lt ibcd.prot).1
              (if lt2 == -1 && (conv lt ibcd.prot).2 != -1 then (conv lt ibcd.prot).2 else lt2)
              title additionalList (ibcd.classDef :: visited) (acc ++ Δ0)).2
    -- names for the two intermediate results
          refine ⟨?_, Δ0 ++ (Δ1 ++ Δ2), ?_, ?_, ?_⟩
          · intro c hc
            exact mono2 _ (mono1 _ (List.mem_cons_of_mem _ hc))
          · rw [heq2, heq1]
            simp [List.append_assoc]
          · intro e he
            rcases List.mem_append.mp he with he0 | he12
            · rcases hcase0 with hnil | ⟨ms, hsing, hms⟩
              · rw [hnil] at he0; simp at he0
              · rw [hsing] at he0
                rcases List.mem_singleton.mp he0 with rfl
                refine ⟨mono2 _ (mono1 _ (List.mem_cons_self _ _)), hnotmem, hms⟩
            · rcases List.mem_append.mp he12 with he1 | he2
              · obtain ⟨h1, h2, h3⟩ := hent1 e he1
                exact ⟨mono2 _ h1,
                  fun hv => h2 (List.mem_cons_of_mem _ hv), h3⟩
              · obtain ⟨h1, h2, h3⟩ := hent2 e he2
                refine ⟨h1, fun hv => h2 (mono1 _ (List.mem_cons_of_mem _ hv)), h3⟩
          · rw [List.map_append, List.nodup_append, List.map_append, List.nodup_append]
            refine ⟨?_, ⟨hnd1, hnd2, ?_⟩, ?_⟩
            · rcases hcase0 with hnil | ⟨ms, hsing, _⟩
              · rw [hnil]; exact List.nodup_nil
              · rw [hsing]; simp
            · intro x hx1 hx2
              obtain ⟨e1, he1, rfl⟩ := List.mem_map.mp hx1
              obtain ⟨e2, he2, hcls⟩ := List.mem_map.mp hx2
              obtain ⟨h1, _, _⟩ := hent1 e1 he1
              obtain ⟨_, h2, _⟩ := hent2 e2 he2
              rw [← hcls] at h1
              exact h2 h1
            · intro x hx0 hx12
              rcases hcase0 with hnil | ⟨ms, hsing, _⟩
              · rw [hnil] at hx0; simp at hx0
              · rw [hsing] at hx0
                simp only [List.map_cons, List.map_nil, List.mem_singleton] at hx0
                subst hx0
                rcases List.mem_append.mp hx12 with hx1 | hx2
                · obtain ⟨e1, he1, hcls⟩ := List.mem_map.mp hx1
                  obtain ⟨_, h2, _⟩ := hent1 e1 he1
                  exact h2 (by rw [hcls]; exact List.mem_cons_self _ _)
                · obtain ⟨e2, he2, hcls⟩ := List.mem_map.mp hx2
                  obtain ⟨_, h2, _⟩ := hent2 e2 he2
                  exact h2 (mono1 _ (by rw [hcls]; exact List.mem_cons_self _ _))
        · simp only [hlt1, Bool.false_eq_true, if_false]
          exact FindInv.weaken (ih _ _ title additionalList (ibcd.classDef :: visited) acc)
    · simp only [Bool.not_eq_true] at hlink
      simp only [hlink, Bool.false_eq_true, if_false]
      exact ih _ _ title additionalList visited acc

/-- The full traversal `findInheritedMembers` satisfies the invariant, by
induction on the recursion depth. -/
theorem findInheritedMembers_inv (conv : Int → Protection → Int × Int) (env : Env)
    (inheritedFrom : ClassId) :
    ∀ (fuel : Nat) (cd : ClassId) (lt lt2 : Int) (title : String)
      (additionalList : Bool) (visited : List ClassId)
      (acc : List InheritedMemberInfo),
      FindInv env visited acc
        (InheritedMemberInfoListContext.Private.findInheritedMembers conv env fuel
          inheritedFrom cd lt lt2 title additionalList visited acc) := by
  intro fuel
  induction fuel with
  | zero =>
    intro cd lt lt2 title additionalList visited acc
    rw [InheritedMemberInfoListContext.Private.findInheritedMembers]
    exact FindInv.refl env visited acc
  | succ fuel ihf =>
    intro cd lt lt2 title additionalList visited acc
    rw [InheritedMemberInfoListContext.Private.findInheritedMembers]
    exact findLoop_inv conv env fuel inheritedFrom
      (fun cd' lt' lt2' t' a' v' ac' => ihf cd' lt' lt2' t' a' v' ac')
      _ lt lt2 title additionalList visited acc

/-- In a well-formed symbol graph, membership in a class's member pool
determines the member's owning class. -/
theorem ownerCls_of_mem_classMembers {env : Env} (hwf : EnvWellFormed env)
    {c : ClassId} {md : Member} (h : md ∈ classMembers (getClass env c)) :
    md.ownerCls = c := by
  unfold getClass at h
  cases hl : List.lookup c env with
  | none =>
    rw [hl] at h
    simp [Option.getD, classMembers, ClassInfo.empty] at h
  | some ci =>
    rw [hl] at h
    exact hwf (c, ci) (lookup_mem hl) md (by simpa [Option.getD] using h)

/-- Claim C2: each top-level `(C, lt)` aggregation starts from its own
fresh visited set, and within one aggregation no ancestor reached through
multiple inheritance paths contributes twice — the produced entries carry
pairwise distinct source classes (at most one aggregate per base class),
and in a well-formed graph no member occurs in two different entries of
the same result. -/
theorem c2_theorem (conv : Int → Protection → Int × Int) (env : Env) (fuel : Nat)
    (cd : ClassId) (lt : Int) (title : String) (additionalList : Bool) :
    ((InheritedMemberInfoListContext.addMemberList conv env fuel cd lt title
        additionalList).map InheritedMemberInfo.cls).Nodup ∧
    (EnvWellFormed env →
      (InheritedMemberInfoListContext.addMemberList conv env fuel cd lt title
        additionalList).Pairwise
        (fun e1 e2 => ∀ md ∈ e1.members, md ∉ e2.members)) := by
  rw [InheritedMemberInfoListContext.addMemberList]
  by_cases hshow : ((additionalList &&
      !decide (0 < (getClass env cd).countMembersIncludingGrouped lt cd false)) ||
      (!additionalList &&
      decide (0 < (getClass env cd).countMembersIncludingGrouped lt cd false))) = true
  · rw [if_pos hshow]
    obtain ⟨_, Δ, heq, hent, hnd⟩ := findInheritedMembers_inv conv env cd fuel cd lt
      (-1) title additionalList [] []
    rw [heq]
    simp only [List.nil_append]
    constructor
    · exact hnd
    · intro hwf
      have hpw : Δ.Pairwise (fun e1 e2 => e1.cls ≠ e2.cls) :=
        List.pairwise_map.mp hnd
      refine hpw.imp_of_mem ?_
      intro e1 e2 he1 he2 hne md hmd1 hmd2
      obtain ⟨_, _, hm1⟩ := hent e1 he1
      obtain ⟨_, _, hm2⟩ := hent e2 he2
      have o1 := ownerCls_of_mem_classMembers hwf (hm1 md hmd1)
      have o2 := ownerCls_of_mem_classMembers hwf (hm2 md hmd2)
      exact hne (o1 ▸ o2 ▸ rfl)
  · rw [if_neg hshow]
    exact ⟨List.nodup_nil, fun _ => List.Pairwise.nil⟩

/-- The diamond graph for the aggregator: `D = 0` derives from `B = 1`
and `C = 2`, which both derive from `A = 3`; only `A` carries a member
(of category `7`), and `D` has own members of that category. -/
def envC2 : Env :=
  [(0, { ClassInfo.empty with
           baseClasses := [⟨1, Protection.Public⟩, ⟨2, Protection.Public⟩],
           countMembersIncludingGrouped := fun _ _ _ => 1 }),
   (1, { ClassInfo.empty with
           isLinkable := true,
           baseClasses := [⟨3, Protection.Public⟩] }),
   (2, { ClassInfo.empty with
           isLinkable := true,
           baseClasses := [⟨3, Protection.Public⟩] }),
   (3, { ClassInfo.empty with
           isLinkable := true,
           countMembersIncludingGrouped := fun _ _ _ => 1,
           memberLists := [(7, ⟨[⟨100, true, [], 7, 3⟩], []⟩)] })]

/-- Witness for C2 on the diamond graph: the `(D, 7)` aggregation has
pairwise distinct entry classes and pairwise disjoint member lists even
though `A` is reachable through both `B` and `C`. -/
theorem c2_witness :
    ((InheritedMemberInfoListContext.addMemberList convSame envC2 5 0 7 "t"
        false).map InheritedMemberInfo.cls).Nodup ∧
    (InheritedMemberInfoListContext.addMemberList convSame envC2 5 0 7 "t"
        false).Pairwise (fun e1 e2 => ∀ md ∈ e1.members, md ∉ e2.members) :=
  ⟨(c2_theorem convSame envC2 5 0 7 "t" false).1,
   (c2_theorem convSame envC2 5 0 7 "t" false).2 (by decide)⟩

/-! ## Claims about the class-hierarchy builder -/

/-- Growing the visited set never increases the number of unvisited
environment classes. -/
theorem unvisitedCount_antitone (env : Env) {v v' : List ClassId}
    (h : ∀ c ∈ v, c ∈ v') : unvisitedCount env v' ≤ unvisitedCount env v := by
  rw [unvisitedCount, unvisitedCount, ← List.countP_eq_length_filter,
    ← List.countP_eq_length_filter]
  apply List.countP_mono_left
  intro c _ hp
  simp only [Bool.not_eq_true'] at hp ⊢
  rw [← Bool.not_eq_true] at hp ⊢
  intro hcv
  exact hp (by
    rw [List.elem_iff] at hcv ⊢
    exact h c hcv)

/-- Filtering out a freshly visited environment class strictly decreases
the unvisited count. -/
theorem filter_insert_lt (cd : ClassId) (visited : List ClassId)
    (hcd : cd ∉ visited) :
    ∀ l : List ClassId, cd ∈ l →
      (l.filter (fun c => !((cd :: visited).contains c))).length <
      (l.filter (fun c => !(visited.contains c))).length := by
  intro l
  induction l with
  | nil => intro h; simp at h
  | cons a rest ih =>
    intro hmem
    by_cases ha : a = cd
    · subst ha
      have hp' : (!((a :: visited).contains a)) = false := by
        simp [List.contains_cons]
      have hp : (!(visited.contains a)) = true := by
        simp only [Bool.not_eq_true']
        rw [← Bool.not_eq_true]
        intro hc
        exact hcd (List.elem_iff.mp hc)
      rw [List.filter_cons, List.filter_cons, hp', hp]
      have hmono : (rest.filter (fun c => !((a :: visited).contains c))).length ≤
          (rest.filter (fun c => !(visited.contains c))).length := by
        rw [← List.countP_eq_length_filter, ← List.countP_eq_length_filter]
        apply List.countP_mono_left
        intro c _ hpc
        simp only [Bool.not_eq_true'] at hpc ⊢
        simp only [List.contains_cons, Bool.or_eq_false_iff] at hpc
        exact hpc.2
      simpa using Nat.lt_succ_of_le hmono
    · have hrest : cd ∈ rest := by
        rcases List.mem_cons.mp hmem with h | h
        · exact absurd h.symm ha
        · exact h
      have heq : ((cd :: visited).contains a) = (visited.contains a) := by
        simp only [List.contains_cons]
        have : (a == cd) = false := by
          simp [ha]
        rw [this, Bool.false_or]
      rw [List.filter_cons, List.filter_cons, heq]
      by_cases hpa : (!(visited.contains a)) = true
      · rw [hpa]
        simpa using Nat.succ_lt_succ (ih hrest)
      · have hpa' : (!(visited.contains a)) = false := by
          simpa using hpa
        rw [hpa']
        simpa using ih hrest
    
/-- An id outside the environment's key set looks up to nothing. -/
theorem lookup_eq_none_of_not_mem_keys {env : Env} {cd : ClassId}
    (h : cd ∉ env.map Prod.fst) : List.lookup cd env = none := by
  rw [List.lookup_eq_none_iff]
  intro p hp
  have : p.1 ≠ cd := by
    intro he
    exact h (List.mem_map.mpr ⟨p, hp, he⟩)
  simp [bne_iff_ne]
  exact fun he => this he.symm

/-- The hierarchy expansion only adds classes to the visited set. -/
theorem addDerivedClasses_mono (ext : ExtVis) (env : Env) (fuel : Nat)
    (HF : ∀ cd hideSuper visited r,
      NestingNodeContext.addClassesInherit ext env fuel cd hideSuper visited = some r →
      ∀ c ∈ visited, c ∈ r.2) :
    ∀ bcl hideSuper visited r,
      NestingContext.addDerivedClasses ext env fuel bcl hideSuper visited = some r →
      ∀ c ∈ visited, c ∈ r.2 := by
  intro bcl
  induction bcl with
  | nil =>
    intro hideSuper visited r h c hc
    rw [NestingContext.addDerivedClasses] at h
    cases h
    exact hc
  | cons bcd rest ih =>
    intro hideSuper visited r h c hc
    rw [NestingContext.addDerivedClasses] at h
    by_cases hskip : ((getClass env bcd.classDef).languageIsVHDL &&
        !(getClass env bcd.classDef).vhdlIsEntityClass) = true
    · rw [if_pos hskip] at h
      exact ih hideSuper visited r h c hc
    · rw [if_neg hskip] at h
      by_cases hvis : ((getClass env bcd.classDef).isVisibleInHierarchy &&
          (if (getClass env bcd.classDef).languageIsVHDL then
            ext.hasVisibleRoot (getClass env bcd.classDef).subClasses
          else ext.hasVisibleRoot (getClass env bcd.classDef).baseClasses)) = true
      · rw [if_pos hvis] at h
        cases h1 : NestingNodeContext.addClassesInherit ext env fuel bcd.classDef
            hideSuper visited with
        | none => rw [h1] at h; cases h
        | some r1 =>
          rw [h1] at h
          dsimp only at h
          cases h2 : NestingContext.addDerivedClasses ext env fuel rest hideSuper
              r1.2 with
          | none => rw [h2] at h; cases h
          | some rs =>
            rw [h2] at h
            cases h
            exact ih hideSuper r1.2 rs h2 c (HF bcd.classDef hideSuper visited r1 h1 c hc)
      · rw [if_neg hvis] at h
        exact ih hideSuper visited r h c hc

/-- The node-expansion step only adds classes to the visited set. -/
theorem addClassesInherit_mono (ext : ExtVis) (env : Env) :
    ∀ (fuel : Nat) (cd : ClassId) (hideSuper : Bool) (visited : List ClassId)
      (r : List HNode × List ClassId),
      NestingNodeContext.addClassesInherit ext env fuel cd hideSuper visited = some r →
      ∀ c ∈ visited, c ∈ r.2 := by
  intro fuel
  induction fuel with
  | zero =>
    intro cd hideSuper visited r h
    rw [NestingNodeContext.addClassesInherit] at h
    cases h
  | succ fuel ih =>
    intro cd hideSuper visited r h c hc
    rw [NestingNodeContext.addClassesInherit] at h
    by_cases hhc : (!(visited.contains cd) && !hideSuper &&
        ext.classHasVisibleChildren cd) = true
    · rw [if_pos hhc] at h
      by_cases hv : (getClass env cd).languageIsVHDL = true
      · rw [if_pos hv] at h
        exact addDerivedClasses_mono ext env fuel (fun a b v' r' => ih a b v' r')
          (getClass env cd).baseClasses false (cd :: visited) r h c
          (List.mem_cons_of_mem _ hc)
      · rw [if_neg hv] at h
        exact addDerivedClasses_mono ext env fuel (fun a b v' r' => ih a b v' r')
          (getClass env cd).subClasses false (cd :: visited) r h c
          (List.mem_cons_of_mem _ hc)
    · rw [if_neg hhc] at h
      cases h
      exact hc

/-- With enough fuel relative to the unvisited environment classes, the
derived-class loop never exhausts its fuel. -/
theorem addDerivedClasses_isSome (ext : ExtVis) (env : Env) (fuel : Nat)
    (HF : ∀ cd hideSuper visited, unvisitedCount env visited < fuel →
      (NestingNodeContext.addClassesInherit ext env fuel cd hideSuper
        visited).isSome = true) :
    ∀ bcl hideSuper visited, unvisitedCount env visited < fuel →
      (NestingContext.addDerivedClasses ext env fuel bcl hideSuper
        visited).isSome = true := by
  intro bcl
  induction bcl with
  | nil =>
    intro hideSuper visited _
    rw [NestingContext.addDerivedClasses]
    rfl
  | cons bcd rest ih =>
    intro hideSuper visited hbound
    rw [NestingContext.addDerivedClasses]
    by_cases hskip : ((getClass env bcd.classDef).languageIsVHDL &&
        !(getClass env bcd.classDef).vhdlIsEntityClass) = true
    · rw [if_pos hskip]
      exact ih hideSuper visited hbound
    · rw [if_neg hskip]
      by_cases hvis : ((getClass env bcd.classDef).isVisibleInHierarchy &&
          (if (getClass env bcd.classDef).languageIsVHDL then
            ext.hasVisibleRoot (getClass env bcd.classDef).subClasses
          else ext.hasVisibleRoot (getClass env bcd.classDef).baseClasses)) = true
      · rw [if_pos hvis]
        cases h1 : NestingNodeContext.addClassesInherit ext env fuel bcd.classDef
            hideSuper visited with
        | none =>
          have := HF bcd.classDef hideSuper visited hbound
          rw [h1] at this
          cases this
        | some r1 =>
          dsimp only
          have hsub : ∀ c ∈ visited, c ∈ r1.2 :=
            addClassesInherit_mono ext env fuel bcd.classDef hideSuper visited r1 h1
          have hb1 : unvisitedCount env r1.2 < fuel :=
            lt_of_le_of_lt (unvisitedCount_antitone env hsub) hbound
          cases h2 : NestingContext.addDerivedClasses ext env fuel rest hideSuper
              r1.2 with
          | none =>
            have := ih hideSuper r1.2 hb1
            rw [h2] at this
            cases this
          | some rs => rfl
      · rw [if_neg hvis]
        exact ih hideSuper visited hbound

/-- With fuel exceeding the number of unvisited environment classes, the
node-expansion step of the hierarchy builder never exhausts its fuel —
in particular it terminates on every class graph, cyclic ones included. -/
theorem addClassesInherit_isSome (ext : ExtVis) (env : Env) :
    ∀ (fuel : Nat) (cd : ClassId) (hideSuper : Bool) (visited : List ClassId),
      unvisitedCount env visited < fuel →
      (NestingNodeContext.addClassesInherit ext env fuel cd hideSuper
        visited).isSome = true := by
  intro fuel
  induction fuel with
  | zero =>
    intro cd hideSuper visited hbound
    exact absurd hbound (Nat.not_lt_zero _)
  | succ fuel ih =>
    intro cd hideSuper visited hbound
    rw [NestingNodeContext.addClassesInherit]
    by_cases hhc : (!(visited.contains cd) && !hideSuper &&
        ext.classHasVisibleChildren cd) = true
    · rw [if_pos hhc]
      have hnotvis : cd ∉ visited := by
        intro hm
        have hct : visited.contains cd = true := by
          rw [List.elem_iff]
          exact hm
        rw [hct] at hhc
        simp at hhc
      by_cases hkey : cd ∈ env.map Prod.fst
      · have hlt : unvisitedCount env (cd :: visited) < unvisitedCount env visited :=
          filter_insert_lt cd visited hnotvis (env.map Prod.fst) hkey
        have hb : unvisitedCount env (cd :: visited) < fuel := by omega
        by_cases hv : (getClass env cd).languageIsVHDL = true
        · rw [if_pos hv]
          exact addDerivedClasses_isSome ext env fuel (fun a b v' => ih a b v')
            (getClass env cd).baseClasses false (cd :: visited) hb
        · rw [if_neg hv]
          exact addDerivedClasses_isSome ext env fuel (fun a b v' => ih a b v')
            (getClass env cd).subClasses false (cd :: visited) hb
      · have hempty : getClass env cd = ClassInfo.empty := by
          rw [getClass, lookup_eq_none_of_not_mem_keys hkey]
          rfl
        rw [hempty]
        by_cases hv : ClassInfo.empty.languageIsVHDL = true
        · rw [if_pos hv]
          rw [show ClassInfo.empty.baseClasses = [] from rfl,
            NestingContext.addDerivedClasses]
          rfl
        · rw [if_neg hv]
          rw [show ClassInfo.empty.subClasses = [] from rfl,
            NestingContext.addDerivedClasses]
          rfl
    · rw [if_neg hhc]
      rfl

/-- With fuel exceeding the number of unvisited environment classes, the
root loop of the class-hierarchy construction completes. -/
theorem addClassHierarchy_isSome (ext : ExtVis) (env : Env) (fuel : Nat) :
    ∀ classList visited, unvisitedCount env visited < fuel →
      (NestingContext.addClassHierarchy ext env fuel classList
        visited).isSome = true := by
  intro classList
  induction classList with
  | nil =>
    intro visited _
    rw [NestingContext.addClassHierarchy]
    rfl
  | cons cd rest ih =>
    intro visited hbound
    rw [NestingContext.addClassHierarchy]
    by_cases hskip : ((getClass env cd).languageIsVHDL &&
        !(getClass env cd).vhdlIsEntityClass) = true
    · rw [if_pos hskip]
      exact ih visited hbound
    · rw [if_neg hskip]
      by_cases hroot : ((if (getClass env cd).languageIsVHDL then
            !(ext.hasVisibleRoot (getClass env cd).subClasses)
          else !(ext.hasVisibleRoot (getClass env cd).baseClasses)) &&
          (getClass env cd).isVisibleInHierarchy) = true
      · rw [if_pos hroot]
        cases h1 : NestingNodeContext.addClassesInherit ext env fuel cd false
            visited with
        | none =>
          have := addClassesInherit_isSome ext env fuel cd false visited hbound
          rw [h1] at this
          cases this
        | some r1 =>
          dsimp only
          have hsub : ∀ c ∈ visited, c ∈ r1.2 :=
            addClassesInherit_mono ext env fuel cd false visited r1 h1
          have hb1 : unvisitedCount env r1.2 < fuel :=
            lt_of_le_of_lt (unvisitedCount_antitone env hsub) hbound
          cases h2 : NestingContext.addClassHierarchy ext env fuel rest r1.2 with
          | none =>
            have := ih r1.2 hb1
            rw [h2] at this
            cases this
          | some rs => rfl
      · rw [if_neg hroot]
        exact ih visited hbound

/-- Visibility hooks for the diamond scenario: every class has visible
children, and a base-class list has a visible root iff it is nonempty. -/
def extDiamond : ExtVis := ⟨fun _ => true, fun l => !l.isEmpty⟩

/-- The diamond inheritance graph for the hierarchy: `A = 0` with
subclasses `B = 1` and `C = 2`, both with subclass `D = 3`, which derives
from both `B` and `C`. -/
def envDiamond : Env :=
  [(0, { ClassInfo.empty with
           isVisibleInHierarchy := true,
           subClasses := [⟨1, Protection.Public⟩, ⟨2, Protection.Public⟩] }),
   (1, { ClassInfo.empty with
           isVisibleInHierarchy := true,
           baseClasses := [⟨0, Protection.Public⟩],
           subClasses := [⟨3, Protection.Public⟩] }),
   (2, { ClassInfo.empty with
           isVisibleInHierarchy := true,
           baseClasses := [⟨0, Protection.Public⟩],
           subClasses := [⟨3, Protection.Public⟩] }),
   (3, { ClassInfo.empty with
           isVisibleInHierarchy := true,
           baseClasses := [⟨1, Protection.Public⟩, ⟨2, Protection.Public⟩] })]

/-- The class-hierarchy tree the builder produces for the diamond graph:
one root `A`, with `B` and `C` beneath it and `D` once under each. -/
theorem diamond_hierarchy_eq :
    NestingContext.addClassHierarchy extDiamond envDiamond 10 [0, 1, 2, 3] [] =
      some ([HNode.mk 0 [HNode.mk 1 [HNode.mk 3 []], HNode.mk 2 [HNode.mk 3 []]]],
            [2, 3, 1, 0]) := by
  simp [NestingContext.addClassHierarchy, NestingNodeContext.addClassesInherit,
    NestingContext.addDerivedClasses, getClass, envDiamond, extDiamond,
    ClassInfo.empty, List.lookup, Option.getD]

/-- Counterexample to claim C3 as stated: in the hierarchy tree built for
the diamond `A, B extends A, C extends A, D extends B and C`, no node for
`B` has `A` among its children — the expansion runs toward subclasses, so
it is `D` (not `A`) that appears once under `B` and once under `C`. -/
theorem c3_counterexample :
    ((NestingContext.addClassHierarchy extDiamond envDiamond 10 [0, 1, 2, 3] []).map
      (fun r => (flattenForest r.1).any
        (fun n => n.cls == 1 && (n.children.map HNode.cls).contains 0))) =
      some false := by
  rw [diamond_hierarchy_eq]
  simp [flattenForest, HNode.cls, HNode.children]

/-- Claim C3 (amended): building the class-hierarchy nesting tree
terminates for every class graph — cyclic inheritance included — once the
fuel exceeds the number of unvisited environment classes; a class already
present in the (shared, per-tree-build) visited set is not re-expanded; a
branch flagged hide-superclass is not expanded; and on the diamond graph
`A, B extends A, C extends A, D extends B and C` the tree has the single
root `A` with branches `B` and `C`, and it is the common descendant `D`
that appears once under `B` and once under `C` as distinct branches. -/
theorem c3_theorem (ext : ExtVis) (env : Env) :
    (∀ fuel classList visited, unvisitedCount env visited < fuel →
      (NestingContext.addClassHierarchy ext env fuel classList
        visited).isSome = true) ∧
    (∀ fuel cd hideSuper visited, visited.contains cd = true →
      NestingNodeContext.addClassesInherit ext env (fuel + 1) cd hideSuper
        visited = some ([], visited)) ∧
    (∀ fuel cd visited,
      NestingNodeContext.addClassesInherit ext env (fuel + 1) cd true visited =
        some ([], visited)) ∧
    (NestingContext.addClassHierarchy extDiamond envDiamond 10 [0, 1, 2, 3] [] =
      some ([HNode.mk 0 [HNode.mk 1 [HNode.mk 3 []], HNode.mk 2 [HNode.mk 3 []]]],
            [2, 3, 1, 0])) := by
  refine ⟨addClassHierarchy_isSome ext env, ?_, ?_, diamond_hierarchy_eq⟩
  · intro fuel cd hideSuper visited h
    rw [NestingNodeContext.addClassesInherit, h]
    simp
  · intro fuel cd visited
    rw [NestingNodeContext.addClassesInherit]
    simp

/-- Witness for C3: on the diamond graph the hierarchy build completes
with fuel `10`, an already visited class yields no children, and a
hide-superclass branch yields no children. -/
theorem c3_witness :
    (NestingContext.addClassHierarchy extDiamond envDiamond 10 [0, 1, 2, 3]
      []).isSome = true ∧
    NestingNodeContext.addClassesInherit extDiamond envDiamond 6 0 false [0] =
      some ([], [0]) ∧
    NestingNodeContext.addClassesInherit extDiamond envDiamond 6 0 true [] =
      some ([], []) :=
  ⟨(c3_theorem extDiamond envDiamond).1 10 [0, 1, 2, 3] [] (by decide),
   (c3_theorem extDiamond envDiamond).2.1 5 0 false [0] (by decide),
   (c3_theorem extDiamond envDiamond).2.2.1 5 0 []⟩
